import Mathlib

/-!
Shallow embedding of the git-smee core (crates/git-smee-core) and proofs
about its configuration model, installer and execution engine.

Conventions used throughout:
* Rust `HashMap` iteration is represented by an association list whose order
  stands for the (unspecified) iteration order of the map.
* Fallible Rust functions returning `Result<T, E>` become `Except E T`.
* File-system access is modelled by an explicit map from path strings to
  nodes; reads of existing regular files are modelled as succeeding.
* A Rust panic is modelled by `Option.none` on functions that can panic.
-/

set_option autoImplicit false

namespace GitSmee

/-- Decidable equality for `Except`, used to evaluate the embedded
fallible functions on concrete inputs. -/
instance exceptDecEq {ε α : Type} [DecidableEq ε] [DecidableEq α] :
    DecidableEq (Except ε α) := fun
  | .error e, .error f => decidable_of_iff (e = f) (by simp)
  | .error _, .ok _ => isFalse Except.noConfusion
  | .ok _, .error _ => isFalse Except.noConfusion
  | .ok a, .ok b => decidable_of_iff (a = b) (by simp)

/-- Unicode code points with the White_Space property, as used by Rust
`char::is_whitespace` (`str::trim`, `str::split_whitespace`). -/
def isRustWhitespace (c : Char) : Bool :=
  let n := c.toNat
  (0x9 ≤ n && n ≤ 0xD) || n == 0x20 || n == 0x85 || n == 0xA0 || n == 0x1680 ||
  (0x2000 ≤ n && n ≤ 0x200A) || n == 0x2028 || n == 0x2029 || n == 0x202F ||
  n == 0x205F || n == 0x3000

/-- Rust `str::trim`: remove leading and trailing whitespace characters. -/
def rustTrim (s : String) : String :=
  ⟨((s.data.dropWhile isRustWhitespace).reverse.dropWhile isRustWhitespace).reverse⟩

/-- Split a character list at every separator (structural recursion, so it
reduces inside the kernel): the groups between separators, empties kept. -/
def splitCharList (p : Char → Bool) : List Char → List (List Char)
  | [] => [[]]
  | c :: rest =>
    match splitCharList p rest with
    | [] => [[c]]
    | g :: gs => if p c then [] :: g :: gs else (c :: g) :: gs

/-- String splitting on a character predicate, via `splitCharList`. -/
def stringSplit (s : String) (p : Char → Bool) : List String :=
  (splitCharList p s.data).map fun cs => ⟨cs⟩

/-- Whether the first list starts with the second. -/
def charsStartWith : List Char → List Char → Bool
  | _, [] => true
  | [], _ :: _ => false
  | c :: cs, d :: ds => c == d && charsStartWith cs ds

/-- Rust `str::starts_with` on a literal pattern. -/
def stringStartsWith (s pat : String) : Bool :=
  charsStartWith s.data pat.data

/-- Rust `str::ends_with` on a literal pattern. -/
def stringEndsWith (s pat : String) : Bool :=
  charsStartWith s.data.reverse pat.data.reverse

/-- Rust `str::contains` on a single character. -/
def stringContainsChar (s : String) (c : Char) : Bool :=
  s.data.any (· == c)

/-- Rust `str::split_whitespace`: whitespace-separated tokens, no empties. -/
def splitWhitespaceRust (s : String) : List String :=
  (stringSplit s isRustWhitespace).filter (· ≠ "")

/-- The lifecycle-phase enum from `config.rs` (`enum LifeCyclePhase`).
The Rust enum declares exactly these nineteen client-side variants. -/
inductive LifeCyclePhase where
  | ApplypatchMsg
  | PreApplypatch
  | PostApplypatch
  | PreCommit
  | PrepareCommitMsg
  | CommitMsg
  | PostCommit
  | PreMergeCommit
  | PreRebase
  | PostCheckout
  | PostMerge
  | PostRewrite
  | PrePush
  | ReferenceTransaction
  | PushToCheckout
  | PreAutoGc
  | PostUpdate
  | FsmonitorWatchman
  | PostIndexChange
deriving DecidableEq, Repr

/-- The validation error enum from `config.rs` (`enum ValidationError`). -/
inductive ValidationError where
  | EmptyHookEntries (hook_name : String)
  | EmptyCommand (hook_name : String) (entry_index : Nat)
deriving DecidableEq, Repr

/-- The configuration error enum from `config.rs` (`enum Error`). IO and
TOML error payloads are carried as message strings. -/
inductive ConfigError where
  | MissingFile
  | CanNotReadExtension
  | NotATomlFileExtension
  | ReadError (msg : String)
  | ParseError (msg : String)
  | SerializeError (msg : String)
  | ValidationError (e : ValidationError)
  | UnknownLifeCyclePhase (s : String)
deriving DecidableEq, Repr

/-- The `Display` implementation for `LifeCyclePhase` in `config.rs`. -/
def LifeCyclePhase.display : LifeCyclePhase → String
  | .ApplypatchMsg => "applypatch-msg"
  | .PreApplypatch => "pre-applypatch"
  | .PostApplypatch => "post-applypatch"
  | .PreCommit => "pre-commit"
  | .PrepareCommitMsg => "prepare-commit-msg"
  | .CommitMsg => "commit-msg"
  | .PostCommit => "post-commit"
  | .PreMergeCommit => "pre-merge-commit"
  | .PreRebase => "pre-rebase"
  | .PostCheckout => "post-checkout"
  | .PostMerge => "post-merge"
  | .PostRewrite => "post-rewrite"
  | .PrePush => "pre-push"
  | .ReferenceTransaction => "reference-transaction"
  | .PushToCheckout => "push-to-checkout"
  | .PreAutoGc => "pre-auto-gc"
  | .PostUpdate => "post-update"
  | .FsmonitorWatchman => "fsmonitor-watchman"
  | .PostIndexChange => "post-index-change"

/-- The `FromStr` implementation for `LifeCyclePhase` in `config.rs`: a match
on the nineteen kebab-case literals, with a fall-through to
`Error::UnknownLifeCyclePhase`. Written as the equivalent chain of string
comparisons. -/
def LifeCyclePhase.from_str (s : String) : Except ConfigError LifeCyclePhase :=
  if s = "applypatch-msg" then .ok .ApplypatchMsg
  else if s = "pre-applypatch" then .ok .PreApplypatch
  else if s = "post-applypatch" then .ok .PostApplypatch
  else if s = "pre-commit" then .ok .PreCommit
  else if s = "prepare-commit-msg" then .ok .PrepareCommitMsg
  else if s = "commit-msg" then .ok .CommitMsg
  else if s = "post-commit" then .ok .PostCommit
  else if s = "pre-merge-commit" then .ok .PreMergeCommit
  else if s = "pre-rebase" then .ok .PreRebase
  else if s = "post-checkout" then .ok .PostCheckout
  else if s = "post-merge" then .ok .PostMerge
  else if s = "post-rewrite" then .ok .PostRewrite
  else if s = "pre-push" then .ok .PrePush
  else if s = "reference-transaction" then .ok .ReferenceTransaction
  else if s = "push-to-checkout" then .ok .PushToCheckout
  else if s = "pre-auto-gc" then .ok .PreAutoGc
  else if s = "post-update" then .ok .PostUpdate
  else if s = "fsmonitor-watchman" then .ok .FsmonitorWatchman
  else if s = "post-index-change" then .ok .PostIndexChange
  else .error (.UnknownLifeCyclePhase s)

/-- The kebab-case vocabulary actually recognized by the code: the nineteen
client-side hook names matched by `from_str`. -/
def phaseVocabulary : List String :=
  ["applypatch-msg", "pre-applypatch", "post-applypatch", "pre-commit",
   "prepare-commit-msg", "commit-msg", "post-commit", "pre-merge-commit",
   "pre-rebase", "post-checkout", "post-merge", "post-rewrite", "pre-push",
   "reference-transaction", "push-to-checkout", "pre-auto-gc", "post-update",
   "fsmonitor-watchman", "post-index-change"]

/-- The hook entry from `config.rs` (`struct HookDefinition`). -/
structure HookDefinition where
  command : String
  parallel_execution_allowed : Bool
deriving DecidableEq, Repr

/-- The configuration from `config.rs` (`struct SmeeConfig`). The Rust
`HashMap` is represented by an association list; the list order stands for
the iteration order of the map. -/
structure SmeeConfig where
  hooks : List (LifeCyclePhase × List HookDefinition)
deriving DecidableEq, Repr

/-- Inner loop of `SmeeConfig::validate`: scan the entries of one phase,
0-based counter `i`, reporting the first whitespace-only command with a
1-based index. -/
def checkEntries (hook_name : String) : Nat → List HookDefinition → Option ValidationError
  | _, [] => none
  | i, d :: ds =>
    if (rustTrim d.command).isEmpty then some (.EmptyCommand hook_name (i + 1))
    else checkEntries hook_name (i + 1) ds

/-- Outer loop of `SmeeConfig::validate`: per phase (in iteration order),
an empty entry list is reported before the entries are scanned. -/
def validateHooks : List (LifeCyclePhase × List HookDefinition) → Except ValidationError Unit
  | [] => .ok ()
  | (phase, hooks) :: rest =>
    if hooks.isEmpty then .error (.EmptyHookEntries phase.display)
    else
      match checkEntries phase.display 0 hooks with
      | some e => .error e
      | none => validateHooks rest

/-- `SmeeConfig::validate` from `config.rs`. -/
def SmeeConfig.validate (cfg : SmeeConfig) : Except ValidationError Unit :=
  validateHooks cfg.hooks

/-- A single-quote character, written via its code point. -/
def squote : String := (Char.ofNat 39).toString

/-- The placeholder command of the default configuration
(`impl Default for SmeeConfig`): `echo 'Default pre-commit hook'`. -/
def defaultCommand : String :=
  "echo " ++ squote ++ "Default pre-commit hook" ++ squote

/-- `impl Default for SmeeConfig` from `config.rs`: one pre-commit phase with
one sequential placeholder entry. -/
def SmeeConfig.default : SmeeConfig :=
  ⟨[(.PreCommit, [⟨defaultCommand, false⟩])]⟩

/-- The double-quote character. -/
def dquoteChar : Char := Char.ofNat 34

/-- The backslash character. -/
def backslashChar : Char := Char.ofNat 92

/-- Escaping for a single-line TOML basic string, as emitted by
`toml::to_string_pretty` for the strings occurring in this configuration
schema (backslash and double quote are escaped). -/
def escapeTomlBasic (s : String) : String :=
  ⟨s.data.foldr
    (fun c acc =>
      if c = dquoteChar ∨ c = backslashChar then backslashChar :: c :: acc
      else c :: acc) []⟩

/-- One serialized `[[phase]]` table for one hook entry, in the exact shape
`toml::to_string_pretty` emits for `SmeeConfig` (serde kebab-case keys,
`command` then `parallel_execution_allowed`). -/
def serializeEntry (phase : LifeCyclePhase) (d : HookDefinition) : String :=
  "[[" ++ phase.display ++ "]]\n" ++
  "command = " ++ dquoteChar.toString ++ escapeTomlBasic d.command ++
    dquoteChar.toString ++ "\n" ++
  "parallel_execution_allowed = " ++
    (if d.parallel_execution_allowed then "true" else "false") ++ "\n"

/-- `impl TryFrom<&SmeeConfig> for String` from `config.rs`
(`toml::to_string_pretty`), modelled on the document fragment this schema
produces: one `[[phase]]` table per entry, tables separated by a blank
line. Serialization of these values cannot fail, so the `Result` wrapper is
dropped. -/
def serializeSmeeConfig (cfg : SmeeConfig) : String :=
  String.intercalate "\n" (cfg.hooks.flatMap fun p => p.2.map (serializeEntry p.1))

/-- Scanner for the remainder of a single-line TOML basic string: collects
characters until the closing quote, accepting escaped quote and backslash;
the closing quote must end the line. -/
def parseBasicStringAux : List Char → List Char → Option String
  | [], _ => none
  | c :: rest, acc =>
    if c = dquoteChar then (if rest.isEmpty then some ⟨acc.reverse⟩ else none)
    else if c = backslashChar then
      match rest with
      | [] => none
      | e :: rest2 =>
        if e = dquoteChar ∨ e = backslashChar then parseBasicStringAux rest2 (e :: acc)
        else none
    else parseBasicStringAux rest (c :: acc)

/-- Parse a single-line TOML basic string value (`"..."`). -/
def parseBasicString (s : String) : Option String :=
  match s.data with
  | c :: rest => if c = dquoteChar then parseBasicStringAux rest [] else none
  | [] => none

/-- Append one finished hook entry to the configuration under construction:
entries of the same phase accumulate in document order. -/
def insertEntry (hooks : List (LifeCyclePhase × List HookDefinition))
    (ph : LifeCyclePhase) (d : HookDefinition) :
    List (LifeCyclePhase × List HookDefinition) :=
  match hooks with
  | [] => [(ph, [d])]
  | (p, ds) :: rest =>
    if p = ph then (p, ds ++ [d]) :: rest else (p, ds) :: insertEntry rest ph d

/-- Close the currently open `[[phase]]` table, requiring the mandatory
`command` field (serde: missing field is a parse error);
`parallel_execution_allowed` defaults to `false`. -/
def finalizePending (hooks : List (LifeCyclePhase × List HookDefinition)) :
    Option (LifeCyclePhase × Option String × Bool) →
    Except String (List (LifeCyclePhase × List HookDefinition))
  | none => .ok hooks
  | some (_, none, _) => .error "missing field command"
  | some (ph, some cmd, par) => .ok (insertEntry hooks ph ⟨cmd, par⟩)

/-- Line-by-line parser for the TOML fragment this schema round-trips
through: `[[phase]]` array-of-tables headers, `command` string values,
`parallel_execution_allowed` booleans, blank lines. Unknown table keys
(serde fails deserializing the `LifeCyclePhase` map key) and unknown entry
fields (`deny_unknown_fields`) are parse errors naming the offender. -/
def parseTomlLines :
    List String → List (LifeCyclePhase × List HookDefinition) →
    Option (LifeCyclePhase × Option String × Bool) →
    Except String (List (LifeCyclePhase × List HookDefinition))
  | [], hooks, pending => finalizePending hooks pending
  | line :: rest, hooks, pending =>
    if line = "" then parseTomlLines rest hooks pending
    else if stringStartsWith line "[[" ∧ stringEndsWith line "]]" then
      match finalizePending hooks pending with
      | .error e => .error e
      | .ok hooks2 =>
        match LifeCyclePhase.from_str ((line.drop 2).dropRight 2) with
        | .error _ => .error ("unknown hook key " ++ (line.drop 2).dropRight 2)
        | .ok ph => parseTomlLines rest hooks2 (some (ph, none, false))
    else if stringStartsWith line "command = " then
      match pending with
      | none => .error "key outside of a table"
      | some (ph, _, par) =>
        match parseBasicString (line.drop 10) with
        | none => .error "invalid string value"
        | some v => parseTomlLines rest hooks (some (ph, some v, par))
    else if stringStartsWith line "parallel_execution_allowed = " then
      match pending with
      | none => .error "key outside of a table"
      | some (ph, cmd, _) =>
        if line.drop 29 = "true" then parseTomlLines rest hooks (some (ph, cmd, true))
        else if line.drop 29 = "false" then parseTomlLines rest hooks (some (ph, cmd, false))
        else .error "invalid boolean value"
    else .error ("unknown key in line " ++ line)

/-- `toml::from_slice::<SmeeConfig>` on the emitted document fragment. -/
def parseToml (s : String) : Except String SmeeConfig :=
  (parseTomlLines (stringSplit s (· == '\n')) [] none).map SmeeConfig.mk

/-- A file-system node: a regular file with its content, or a directory. -/
inductive FsNode where
  | file (content : String)
  | dir
deriving DecidableEq

/-- A file system: a map from path strings to nodes (absent paths map to
`none`). Reads of present regular files are modelled as succeeding. -/
def FileSystem := String → Option FsNode

/-- Rust `Path::extension`: the part of the last path component after its
last dot; `none` when the component has no dot or is a dotfile with a
single leading dot. -/
def pathExtension (path : String) : Option String :=
  match ((stringSplit path (· == '/')).filter (· ≠ "")).getLast? with
  | none => none
  | some name =>
    match stringSplit name (· == '.') with
    | [] => none
    | [_] => none
    | first :: rest =>
      if first = "" ∧ rest.length = 1 then none else rest.getLast?

/-- `SmeeConfig::from_toml` from `config.rs`: the path must exist and be a
regular file (one combined check yielding `MissingFile`), carry a readable
extension equal to `toml`, then the bytes are read, parsed and validated. -/
def SmeeConfig.from_toml (fs : FileSystem) (path : String) :
    Except ConfigError SmeeConfig :=
  match fs path with
  | none => .error .MissingFile
  | some .dir => .error .MissingFile
  | some (.file data) =>
    match pathExtension path with
    | none => .error .CanNotReadExtension
    | some ext =>
      if ext ≠ "toml" then .error .NotATomlFileExtension
      else
        match parseToml data with
        | .error msg => .error (.ParseError msg)
        | .ok config =>
          match config.validate with
          | .error e => .error (.ValidationError e)
          | .ok _ => .ok config

/-- Rust `String::truncate(new_len)` on a list of characters: keep the
longest character prefix of total UTF-8 size `new_len`; when `new_len`
exceeds the total size the string is unchanged; when `new_len` falls inside
a character the call panics, modelled as `none`. -/
def truncateBytes : List Char → Nat → Option (List Char)
  | _, 0 => some []
  | [], _ + 1 => some []
  | c :: cs, n + 1 =>
    if c.utf8Size ≤ n + 1 then (truncateBytes cs (n + 1 - c.utf8Size)).map (c :: ·)
    else none

/-- Rust `String::truncate` lifted to strings (`none` models the panic on a
non-boundary `new_len`). -/
def rustTruncate (s : String) (n : Nat) : Option String :=
  (truncateBytes s.data n).map (⟨·⟩)

/-- `is_inline_env_assignment` from `executor.rs`. -/
def is_inline_env_assignment (token : String) : Bool :=
  stringContainsChar token '=' && !(stringStartsWith token "-") &&
    !(stringContainsChar token '/') && !(stringContainsChar token backslashChar)

/-- `redact_command` from `executor.rs`: split on whitespace, skip leading
inline environment assignments, show the first remaining token (byte length
measured by Rust `String::len`, truncated at byte 77 with `...` appended
when longer than 80 bytes), then a fixed marker when further tokens exist.
The result is `none` when the byte-77 truncation panics inside a
character. -/
def redact_command (command : String) : Option String :=
  let tokens := splitWhitespaceRust command
  let afterEnv := tokens.dropWhile is_inline_env_assignment
  let executable := afterEnv.headD "<redacted>"
  let remaining := afterEnv.tail
  let withEllipsis : Option String :=
    if executable.utf8ByteSize > 80 then (rustTruncate executable 77).map (· ++ "...")
    else some executable
  match withEllipsis with
  | none => none
  | some redacted =>
    some (if remaining.isEmpty then redacted else redacted ++ " <args redacted>")

/-- The execution error enum from `executor.rs` (`enum Error`); the io error
payload is carried as a message string. -/
inductive ExecError where
  | ExecutionFailed (code : Int)
  | ExecutionTerminatedBySignal
  | NoHooksConfigured (phase : LifeCyclePhase)
  | NoCommandDefined
  | CommandSpawnFailed (command : String) (shell : String) (source : String)
deriving DecidableEq, Repr

/-- Outcome of one `CommandRunner::run` call: an exit status (`none` inside
means no exit code was obtainable, i.e. signal termination), or a failure
to spawn the process. -/
inductive RunOutcome where
  | exit (code : Option Int)
  | spawnError (msg : String)
deriving DecidableEq, Repr

/-- The `CommandRunner` trait from `executor.rs`, as a deterministic record:
what running a given command string returns, and the shell description. -/
structure CommandRunner where
  run : String → RunOutcome
  shell_display : String

/-- `execute_command` from `executor.rs`. The first component is the list
of runner invocations made by the call (the shell is invoked exactly when
the trimmed command is non-empty); the second is the outcome, with `none`
modelling a panic propagated out of `redact_command`. -/
def execute_command (command : String) (runner : CommandRunner) :
    List String × Option (Except ExecError Unit) :=
  if (rustTrim command).isEmpty then ([], some (.error .NoCommandDefined))
  else
    ([command],
      match runner.run command with
      | .spawnError src =>
        match redact_command command with
        | none => none
        | some red => some (.error (.CommandSpawnFailed red runner.shell_display src))
      | .exit (some code) =>
        if code = 0 then some (.ok ()) else some (.error (.ExecutionFailed code))
      | .exit none => some (.error .ExecutionTerminatedBySignal))

/-- The sequential `try_for_each` over the sequential group in
`run_hooks_with_runner`: run each entry in declared order, stopping at the
first non-success. -/
def runSeq (runner : CommandRunner) :
    List HookDefinition → List String × Option (Except ExecError Unit)
  | [] => ([], some (.ok ()))
  | h :: t =>
    let r := execute_command h.command runner
    match r.2 with
    | some (.ok _) =>
      let rt := runSeq runner t
      (r.1 ++ rt.1, rt.2)
    | other => (r.1, other)

/-- Combine the outcome of one parallel member with the rest of the group:
a panic or failure of an earlier-listed member is the one reported. -/
def parCombine :
    Option (Except ExecError Unit) → Option (Except ExecError Unit) →
    Option (Except ExecError Unit)
  | none, _ => none
  | some (.error e), _ => some (.error e)
  | some (.ok _), r => r

/-- The rayon `par_iter().try_for_each` over the parallel group in
`run_hooks_with_runner`, under one canonical schedule: every member is
invoked (rayon has no cancellation of dispatched members) and the reported
failure is the earliest-listed one. The claims proved below depend only on
when the parallel group starts, not on its internal order. -/
def runPar (runner : CommandRunner) :
    List HookDefinition → List String × Option (Except ExecError Unit)
  | [] => ([], some (.ok ()))
  | h :: t =>
    let r := execute_command h.command runner
    let rt := runPar runner t
    (r.1 ++ rt.1, parCombine r.2 rt.2)

/-- `run_hooks_with_runner` from `executor.rs`: partition the entries by
`parallel_execution_allowed`, run the sequential group first, and start the
parallel group only when the whole sequential group succeeded. -/
def run_hooks_with_runner (hooks : List HookDefinition) (runner : CommandRunner) :
    List String × Option (Except ExecError Unit) :=
  let sequential_hooks := hooks.filter fun h => !h.parallel_execution_allowed
  let parallel_hooks := hooks.filter fun h => h.parallel_execution_allowed
  let rs := runSeq runner sequential_hooks
  match rs.2 with
  | some (.ok _) =>
    let rp := runPar runner parallel_hooks
    (rs.1 ++ rp.1, rp.2)
  | other => (rs.1, other)

/-- `MANAGED_FILE_MARKER` from `installer.rs`. -/
def MANAGED_FILE_MARKER : String := "THIS FILE IS MANAGED BY git-smee"

/-- `DEFAULT_CONFIG_FILE_NAME` from `lib.rs`. -/
def DEFAULT_CONFIG_FILE_NAME : String := ".git-smee.toml"

/-- The installer error enum from `installer.rs` (`enum Error`), io payloads
carried as message strings. -/
inductive InstallerError where
  | NotImplemented
  | HooksDirNotFound (path : String)
  | NoHooksPresent
  | FailedToWriteHook (path : String) (msg : String)
  | FailedToWriteConfigFile (path : String) (msg : String)
  | PlatformError (msg : String)
  | FailedToResolveHooksDirectory (msg : String)
  | InvalidRepositoryRoot (path : String) (msg : String)
  | RefusingToOverwriteUnmanagedHookFile (path : String)
  | RefusingToOverwriteUnmanagedConfigFile (path : String)
  | RefusingToOverwriteManagedConfigFile (path : String)
  | FailedToReadExistingFile (path : String) (msg : String)
  | FailedToResolveCurrentExecutable (msg : String)
deriving DecidableEq, Repr

/-- Keep the longest character prefix whose UTF-8 size fits in `n` bytes:
the single 1024-byte header read in `is_managed_file` (a character chopped
at the read boundary is dropped; the marker lines compared against are
ASCII). -/
def takeBytesUpTo : List Char → Nat → List Char
  | [], _ => []
  | c :: cs, n => if c.utf8Size ≤ n then c :: takeBytesUpTo cs (n - c.utf8Size) else []

/-- `FileSystemHookInstaller::is_managed_file` from `installer.rs`, as a
function of the file content: inspect at most the first 1024 bytes and at
most 8 lines, strip a trailing carriage return per line, skip empty lines,
and accept exactly the hash- or REM-prefixed marker line. -/
def is_managed_file (content : String) : Bool :=
  let header : String := ⟨takeBytesUpTo content.data 1024⟩
  let marker_hash := "# " ++ MANAGED_FILE_MARKER
  let marker_rem := "REM " ++ MANAGED_FILE_MARKER
  ((stringSplit header (· == '\n')).take 8).any fun line =>
    let normalized := if stringEndsWith line "\r" then line.dropRight 1 else line
    !normalized.isEmpty && (normalized == marker_hash || normalized == marker_rem)

/-- `struct FileSystemHookInstaller` from `installer.rs` (paths as strings). -/
structure FileSystemHookInstaller where
  repository_root : String
  hooks_dir : String
  force_overwrite : Bool

/-- `Path::join` for the string path model. -/
def joinPath (dir name : String) : String := dir ++ "/" ++ name

/-- `FileSystemHookInstaller::ensure_can_write_config` from `installer.rs`:
an absent target or the force flag allows the write; otherwise the existing
target is always rejected, distinguishing managed from unmanaged content.
A present target that cannot be read as a regular file surfaces as
`FailedToReadExistingFile`. -/
def ensure_can_write_config (fs : FileSystem) (inst : FileSystemHookInstaller)
    (config_file : String) : Except InstallerError Unit :=
  match fs config_file with
  | none => .ok ()
  | some node =>
    if inst.force_overwrite then .ok ()
    else
      match node with
      | .dir => .error (.FailedToReadExistingFile config_file "is a directory")
      | .file content =>
        if is_managed_file content then
          .error (.RefusingToOverwriteManagedConfigFile config_file)
        else
          .error (.RefusingToOverwriteUnmanagedConfigFile config_file)

/-- `FileSystemHookInstaller::install_config_file` from `installer.rs`:
resolve the target path, run the overwrite check, then write the content
(the write itself is modelled as succeeding). Returns the outcome and the
resulting file system. -/
def install_config_file (fs : FileSystem) (inst : FileSystemHookInstaller)
    (config_content : String) : Except InstallerError String × FileSystem :=
  let config_path := joinPath inst.repository_root DEFAULT_CONFIG_FILE_NAME
  match ensure_can_write_config fs inst config_path with
  | .error e => (.error e, fs)
  | .ok _ =>
    (.ok config_path,
     fun p => if p = config_path then some (.file config_content) else fs p)

/-! ## Claim C1 -/

/-- Claim C1, counterexample: the claim asserts that the server-side names
pre-receive, update, proc-receive and post-receive are in the parsing
vocabulary, but `from_str` rejects each of them with
`UnknownLifeCyclePhase` — the enum declares only the nineteen client-side
variants. -/
theorem lifecycle_phase_server_side_counterexample :
    LifeCyclePhase.from_str "pre-receive" =
      .error (.UnknownLifeCyclePhase "pre-receive") ∧
    LifeCyclePhase.from_str "update" = .error (.UnknownLifeCyclePhase "update") ∧
    LifeCyclePhase.from_str "proc-receive" =
      .error (.UnknownLifeCyclePhase "proc-receive") ∧
    LifeCyclePhase.from_str "post-receive" =
      .error (.UnknownLifeCyclePhase "post-receive") :=
  ⟨rfl, rfl, rfl, rfl⟩

/-- Any string outside the nineteen-name vocabulary falls through the match
in `from_str` to the `UnknownLifeCyclePhase` error. -/
theorem from_str_unknown (s : String) (hs : s ∉ phaseVocabulary) :
    LifeCyclePhase.from_str s = .error (.UnknownLifeCyclePhase s) := by
  simp only [phaseVocabulary, List.mem_cons, List.not_mem_nil, or_false,
    not_or] at hs
  obtain ⟨h1, h2, h3, h4, h5, h6, h7, h8, h9, h10, h11, h12, h13, h14, h15,
    h16, h17, h18, h19⟩ := hs
  simp only [LifeCyclePhase.from_str, if_neg h1, if_neg h2, if_neg h3,
    if_neg h4, if_neg h5, if_neg h6, if_neg h7, if_neg h8, if_neg h9,
    if_neg h10, if_neg h11, if_neg h12, if_neg h13, if_neg h14, if_neg h15,
    if_neg h16, if_neg h17, if_neg h18, if_neg h19]

/-- Claim C1, amended: on the nineteen client-side names actually declared
by the enum, `from_str` and `display` are mutually inverse, every rendered
form lies in that vocabulary, and every string outside it is rejected with
the distinct `UnknownLifeCyclePhase` error carrying the offending string. -/
theorem lifecycle_phase_bijection_amended :
    (∀ p : LifeCyclePhase, LifeCyclePhase.from_str p.display = .ok p) ∧
    (∀ s p, LifeCyclePhase.from_str s = .ok p → p.display = s) ∧
    (∀ p : LifeCyclePhase, p.display ∈ phaseVocabulary) ∧
    (∀ s, s ∉ phaseVocabulary →
      LifeCyclePhase.from_str s = .error (.UnknownLifeCyclePhase s)) := by
  refine ⟨?_, ?_, ?_, fun s hs => from_str_unknown s hs⟩
  · intro p; cases p <;> rfl
  · intro s p h
    have hv : s ∈ phaseVocabulary := by
      by_contra hns
      rw [from_str_unknown s hns] at h
      exact Except.noConfusion h
    simp only [phaseVocabulary, List.mem_cons, List.not_mem_nil,
      or_false] at hv
    rcases hv with rfl | rfl | rfl | rfl | rfl | rfl | rfl | rfl | rfl | rfl |
      rfl | rfl | rfl | rfl | rfl | rfl | rfl | rfl | rfl <;>
      (cases p <;> first | rfl | exact absurd h (by decide))
  · intro p; cases p <;> decide

/-- Claim C1, witness: the amended theorem applied at the pre-commit phase
and at a concrete string outside the vocabulary. -/
theorem lifecycle_phase_bijection_witness :
    LifeCyclePhase.from_str (LifeCyclePhase.display .PreCommit) = .ok .PreCommit ∧
    "not-a-hook" ∉ phaseVocabulary ∧
    LifeCyclePhase.from_str "not-a-hook" =
      .error (.UnknownLifeCyclePhase "not-a-hook") :=
  ⟨lifecycle_phase_bijection_amended.1 .PreCommit, by decide,
   lifecycle_phase_bijection_amended.2.2.2 "not-a-hook" (by decide)⟩

/-! ## Claim C6 -/

/-- A phase entry passes validation: its list is non-empty and no command
is whitespace-only. -/
def phaseOk (p : LifeCyclePhase × List HookDefinition) : Bool :=
  !p.2.isEmpty && p.2.all fun d => !(rustTrim d.command).isEmpty

/-- The violation `validate` reports for the first failing phase: the
empty-list error, or the blank-command error carrying the 1-based index of
the first blank entry. -/
def firstViolation (ph : LifeCyclePhase) (es : List HookDefinition) :
    ValidationError :=
  if es.isEmpty then .EmptyHookEntries ph.display
  else .EmptyCommand ph.display
    (es.findIdx (fun d => (rustTrim d.command).isEmpty) + 1)

/-- The entry scan succeeds exactly when every command is non-blank. -/
theorem checkEntries_none_iff (n : String) (ds : List HookDefinition) :
    ∀ i, checkEntries n i ds = none ↔
      ds.all (fun d => !(rustTrim d.command).isEmpty) = true := by
  induction ds with
  | nil => intro i; simp [checkEntries]
  | cons d t ih =>
    intro i
    by_cases hd : (rustTrim d.command).isEmpty = true
    · simp [checkEntries, hd]
    · simp [checkEntries, hd, ih (i + 1)]

/-- The entry scan reports the first blank command with its 1-based index,
offset by the starting counter. -/
theorem checkEntries_some (n : String) (ds : List HookDefinition) :
    ∀ i, ds.any (fun d => (rustTrim d.command).isEmpty) = true →
      checkEntries n i ds = some (.EmptyCommand n
        (i + ds.findIdx (fun d => (rustTrim d.command).isEmpty) + 1)) := by
  induction ds with
  | nil => simp
  | cons d t ih =>
    intro i h
    by_cases hd : (rustTrim d.command).isEmpty = true
    · simp [checkEntries, hd, List.findIdx_cons]
    · have ht : t.any (fun d => (rustTrim d.command).isEmpty) = true := by
        simpa [List.any_cons, hd] using h
      have := ih (i + 1) ht
      simp only [checkEntries, hd, if_false, List.findIdx_cons]
      simp [hd, this]
      omega

/-- Validation succeeds exactly when every phase passes. -/
theorem validateHooks_ok_iff (l : List (LifeCyclePhase × List HookDefinition)) :
    validateHooks l = .ok () ↔ ∀ p ∈ l, phaseOk p = true := by
  induction l with
  | nil => simp [validateHooks]
  | cons hd t ih =>
    obtain ⟨ph, es⟩ := hd
    by_cases he : es.isEmpty
    · have hpf : phaseOk (ph, es) = false := by simp [phaseOk, he]
      have hv : validateHooks ((ph, es) :: t) =
          .error (.EmptyHookEntries ph.display) := by simp [validateHooks, he]
      rw [hv]
      constructor
      · intro h; exact Except.noConfusion h
      · intro h
        have := h (ph, es) (List.mem_cons_self _ _)
        rw [hpf] at this
        exact absurd this (by simp)
    · cases hc : checkEntries ph.display 0 es with
      | some e =>
        have hne : (es.all fun d => !(rustTrim d.command).isEmpty) = false := by
          cases hall : es.all fun d => !(rustTrim d.command).isEmpty
          · rfl
          · rw [(checkEntries_none_iff ph.display es 0).mpr hall] at hc
            exact Option.noConfusion hc
        have hpf : phaseOk (ph, es) = false := by simp [phaseOk, hne]
        have hv : validateHooks ((ph, es) :: t) = .error e := by
          simp [validateHooks, he, hc]
        rw [hv]
        constructor
        · intro h; exact Except.noConfusion h
        · intro h
          have := h (ph, es) (List.mem_cons_self _ _)
          rw [hpf] at this
          exact absurd this (by simp)
      | none =>
        have hall := (checkEntries_none_iff ph.display es 0).mp hc
        have hpt : phaseOk (ph, es) = true := by simp [phaseOk, he, hall]
        have hv : validateHooks ((ph, es) :: t) = validateHooks t := by
          simp [validateHooks, he, hc]
        rw [hv, ih]
        constructor
        · intro h p hp
          rcases List.mem_cons.mp hp with rfl | hp2
          · exact hpt
          · exact h p hp2
        · intro h p hp
          exact h p (List.mem_cons_of_mem _ hp)

/-- Validation reports the violation of the first failing phase in
iteration order. -/
theorem validateHooks_first (ph : LifeCyclePhase) (es : List HookDefinition)
    (l₂ : List (LifeCyclePhase × List HookDefinition)) :
    ∀ l₁, (∀ p ∈ l₁, phaseOk p = true) → phaseOk (ph, es) = false →
      validateHooks (l₁ ++ (ph, es) :: l₂) = .error (firstViolation ph es) := by
  intro l₁
  induction l₁ with
  | nil =>
    intro _ hbad
    by_cases he : es.isEmpty
    · simp [validateHooks, he, firstViolation]
    · have h1 : es.all (fun d => !(rustTrim d.command).isEmpty) = false := by
        simpa [phaseOk, he] using hbad
      have hany : es.any (fun d => (rustTrim d.command).isEmpty) = true := by
        rcases List.all_eq_false.mp h1 with ⟨d, hd, hblank⟩
        exact List.any_eq_true.mpr ⟨d, hd, by simpa using hblank⟩
      simp [validateHooks, he, checkEntries_some ph.display es 0 hany,
        firstViolation]
  | cons q t ih =>
    intro hgood hbad
    obtain ⟨qph, qes⟩ := q
    have hq : phaseOk (qph, qes) = true := hgood _ (by simp)
    simp only [phaseOk, Bool.and_eq_true, Bool.not_eq_true'] at hq
    have h1 : qes.isEmpty = false := hq.1
    have h2 : checkEntries qph.display 0 qes = none :=
      (checkEntries_none_iff qph.display qes 0).mpr hq.2
    simp only [List.cons_append, validateHooks, h1, Bool.false_eq_true,
      if_false, h2]
    exact ih (fun p hp => hgood p (by simp [hp])) hbad

/-- Claim C6 (confirmed): validation succeeds exactly when no phase has an
empty entry list and no entry has a blank command; otherwise it reports the
violation of the first failing phase in iteration order —
`EmptyHookEntries` naming the phase for an empty list, `EmptyCommand`
naming the phase and the 1-based index of the first blank entry. -/
theorem validate_first_violation (cfg : SmeeConfig) :
    (cfg.validate = .ok () ↔ ∀ p ∈ cfg.hooks, phaseOk p = true) ∧
    (∀ l₁ ph es l₂, cfg.hooks = l₁ ++ (ph, es) :: l₂ →
      (∀ p ∈ l₁, phaseOk p = true) → phaseOk (ph, es) = false →
      cfg.validate = .error (firstViolation ph es)) := by
  constructor
  · exact validateHooks_ok_iff cfg.hooks
  · intro l₁ ph es l₂ hsplit hgood hbad
    show validateHooks cfg.hooks = _
    rw [hsplit]
    exact validateHooks_first ph es l₂ l₁ hgood hbad

/-- Claim C6, witness: the configuration of the repo's own validation test
(pre-commit with a good first entry and a blank second entry) is rejected
with the phase name and the 1-based index 2. -/
theorem validate_first_violation_witness :
    SmeeConfig.validate
      ⟨[(.PreCommit, [⟨"cargo test", false⟩, ⟨"   ", false⟩])]⟩ =
      .error (.EmptyCommand "pre-commit" 2) := by
  have h := (validate_first_violation
      ⟨[(.PreCommit, [⟨"cargo test", false⟩, ⟨"   ", false⟩])]⟩).2
    [] .PreCommit [⟨"cargo test", false⟩, ⟨"   ", false⟩] [] rfl
    (by simp) (by decide)
  exact h.trans (by decide)

/-! ## Claims C7, C8, C9 -/

/-- A file system holding the serialized default configuration at a
`.toml` path. -/
def defaultFs : FileSystem := fun p =>
  if p = "/repo/.git-smee.toml" then
    some (.file (serializeSmeeConfig SmeeConfig.default))
  else none

set_option maxRecDepth 10000 in
/-- Claim C8 (confirmed): loading the serialized default configuration
yields exactly the default configuration — one phase, pre-commit, with one
entry carrying the default placeholder command and
`parallel_execution_allowed = false`. -/
theorem default_config_roundtrip :
    SmeeConfig.from_toml defaultFs "/repo/.git-smee.toml" =
      .ok SmeeConfig.default := by decide

/-- Every configuration returned by `from_toml` has passed `validate`. -/
theorem from_toml_ok_validate (fs : FileSystem) (path : String)
    (cfg : SmeeConfig) (h : SmeeConfig.from_toml fs path = .ok cfg) :
    cfg.validate = .ok () := by
  unfold SmeeConfig.from_toml at h
  split at h
  · exact Except.noConfusion h
  · exact Except.noConfusion h
  · split at h
    · exact Except.noConfusion h
    · split at h
      · exact Except.noConfusion h
      · split at h
        · exact Except.noConfusion h
        · split at h
          · exact Except.noConfusion h
          · rename_i config val hval
            cases val
            cases Except.ok.inj h
            exact hval

/-- Claim C9 (confirmed): every configuration successfully returned by
`from_toml` satisfies the validation invariant — each present phase has a
non-empty entry list and no entry has a whitespace-only command. -/
theorem from_toml_validates (fs : FileSystem) (path : String)
    (cfg : SmeeConfig) (h : SmeeConfig.from_toml fs path = .ok cfg) :
    ∀ p ∈ cfg.hooks, p.2 ≠ [] ∧
      ∀ d ∈ p.2, (rustTrim d.command).isEmpty = false := by
  have hv := from_toml_ok_validate fs path cfg h
  intro p hp
  have hok := (validateHooks_ok_iff cfg.hooks).mp hv p hp
  simp only [phaseOk, Bool.and_eq_true, Bool.not_eq_true'] at hok
  refine ⟨?_, ?_⟩
  · intro hnil
    rw [hnil] at hok
    exact absurd hok.1 (by simp)
  · intro d hd
    have := List.all_eq_true.mp hok.2 d hd
    simpa using this

set_option maxRecDepth 10000 in
/-- Claim C9, witness: the invariant instantiated at the concrete load of
the serialized default configuration. -/
theorem from_toml_validates_witness :
    SmeeConfig.from_toml defaultFs "/repo/.git-smee.toml" =
      .ok SmeeConfig.default ∧
    ∀ p ∈ SmeeConfig.default.hooks, p.2 ≠ [] ∧
      ∀ d ∈ p.2, (rustTrim d.command).isEmpty = false := by
  have h : SmeeConfig.from_toml defaultFs "/repo/.git-smee.toml" =
      .ok SmeeConfig.default := by decide
  exact ⟨h, from_toml_validates defaultFs "/repo/.git-smee.toml"
    SmeeConfig.default h⟩

/-- A file system holding a directory at a `.toml` path. -/
def dirFs : FileSystem := fun p =>
  if p = "/repo/cfg.toml" then some .dir else none

/-- The empty file system. -/
def emptyFs : FileSystem := fun _ => none

/-- Claim C7, counterexample: for a path that exists but is a directory,
`from_toml` returns `MissingFile` — the very same error value returned for
an absent path — because the source collapses `!exists` and `!is_file`
into one check; the error enum declares no `NotAFile` variant at all, so
the two situations are not distinguished. -/
theorem from_toml_dir_counterexample :
    SmeeConfig.from_toml dirFs "/repo/cfg.toml" = .error .MissingFile ∧
    SmeeConfig.from_toml emptyFs "/repo/cfg.toml" = .error .MissingFile := by
  exact ⟨rfl, rfl⟩

/-- Claim C7, amended: `from_toml` returns `MissingFile` both when the path
does not exist and when it exists but is not a regular file; the declared
error set is MissingFile, CanNotReadExtension, NotATomlFileExtension,
ReadError, ParseError, SerializeError, ValidationError and
UnknownLifeCyclePhase, with no separate NotAFile variant. -/
theorem from_toml_missing_amended (fs : FileSystem) (path : String) :
    (fs path = none → SmeeConfig.from_toml fs path = .error .MissingFile) ∧
    (fs path = some .dir →
      SmeeConfig.from_toml fs path = .error .MissingFile) := by
  constructor
  · intro h; unfold SmeeConfig.from_toml; rw [h]
  · intro h; unfold SmeeConfig.from_toml; rw [h]

/-- Claim C7, witness: the amended theorem applied to a concrete absent
path and a concrete directory path. -/
theorem from_toml_missing_witness :
    SmeeConfig.from_toml emptyFs "/a/b.toml" = .error .MissingFile ∧
    SmeeConfig.from_toml dirFs "/repo/cfg.toml" = .error .MissingFile :=
  ⟨(from_toml_missing_amended emptyFs "/a/b.toml").1 rfl,
   (from_toml_missing_amended dirFs "/repo/cfg.toml").2 rfl⟩

/-! ## Claim C3 -/

/-- Claim C3 (confirmed): when the config target exists as a regular file
and the force flag is not set, `install_config_file` always fails —
`RefusingToOverwriteManagedConfigFile` when the existing content carries
the managed marker, `RefusingToOverwriteUnmanagedConfigFile` otherwise —
and the file system is returned unchanged: the write is never attempted. -/
theorem install_config_refuses_existing (fs : FileSystem)
    (inst : FileSystemHookInstaller) (content existing : String)
    (hforce : inst.force_overwrite = false)
    (hfs : fs (joinPath inst.repository_root DEFAULT_CONFIG_FILE_NAME) =
      some (.file existing)) :
    install_config_file fs inst content =
      (.error (if is_managed_file existing then
          .RefusingToOverwriteManagedConfigFile
            (joinPath inst.repository_root DEFAULT_CONFIG_FILE_NAME)
        else
          .RefusingToOverwriteUnmanagedConfigFile
            (joinPath inst.repository_root DEFAULT_CONFIG_FILE_NAME)),
       fs) := by
  by_cases hm : is_managed_file existing <;>
    simp [install_config_file, ensure_can_write_config, hfs, hforce, hm]

/-- A file system with an unmanaged user file at the default config path. -/
def fsExistingConfig : FileSystem := fun p =>
  if p = "/repo/.git-smee.toml" then some (.file "user content") else none

/-- An installer rooted at `/repo` without the force flag. -/
def plainInstaller : FileSystemHookInstaller :=
  ⟨"/repo", "/repo/.git/hooks", false⟩

/-- Claim C3, witness: installing over a concrete unmanaged config file is
refused with the unmanaged-config error and leaves the file system as it
was. -/
theorem install_config_refuses_existing_witness :
    install_config_file fsExistingConfig plainInstaller "new content" =
      (.error (.RefusingToOverwriteUnmanagedConfigFile "/repo/.git-smee.toml"),
       fsExistingConfig) := by
  have h := install_config_refuses_existing fsExistingConfig plainInstaller
    "new content" "user content" rfl (by decide)
  rw [h]
  rfl

/-! ## Claims C4, C10 -/

/-- The character U+00E9, whose UTF-8 encoding takes two bytes. -/
def eAcute : Char := Char.ofNat 233

/-- A single-token command of fifty two-byte characters (100 bytes): its
byte length exceeds 80, and byte 77 falls inside a character. -/
def panicToken : String := String.mk (List.replicate 50 eAcute)

/-- A single-token command of 41 characters and 81 bytes. -/
def longToken : String := "a" ++ String.mk (List.replicate 40 eAcute)

/-- Claim C4 (code_bug): the redaction truncates by bytes, not characters.
On a 41-character, 81-byte token the executable is cut at byte 77 even
though the token is far shorter than 80 characters; and on a 100-byte token
of two-byte characters, byte 77 is not a character boundary, so
`String::truncate(77)` panics (modelled as `none`) instead of producing any
display. -/
theorem redact_command_byte_truncation :
    redact_command panicToken = none ∧
    redact_command longToken =
      some ("a" ++ String.mk (List.replicate 38 eAcute) ++ "...") := by
  constructor <;> decide

/-- Claim C10 (confirmed): when every whitespace token of the command is an
inline environment assignment, the redacted display is exactly the literal
`<redacted>` with no args marker — no token of the command appears. -/
theorem redact_all_env (c : String)
    (h : ∀ t ∈ splitWhitespaceRust c, is_inline_env_assignment t = true) :
    redact_command c = some "<redacted>" := by
  have hd : (splitWhitespaceRust c).dropWhile is_inline_env_assignment = [] :=
    List.dropWhile_eq_nil_iff.mpr h
  simp only [redact_command, hd]
  decide

/-- Claim C10, witness: a concrete command made only of environment
assignments redacts to the bare placeholder. -/
theorem redact_all_env_witness :
    (∀ t ∈ splitWhitespaceRust "TOKEN=super-secret API_KEY=123",
      is_inline_env_assignment t = true) ∧
    redact_command "TOKEN=super-secret API_KEY=123" = some "<redacted>" :=
  ⟨by decide, redact_all_env "TOKEN=super-secret API_KEY=123" (by decide)⟩

/-! ## Claim C5 -/

/-- A runner whose spawn always fails with an OS error. -/
def spawnFailRunner : CommandRunner :=
  ⟨fun _ => .spawnError "No such file or directory", "sh -c"⟩

/-- Claim C5, counterexample: a failure to start the shell does not always
yield `CommandSpawnFailed` — on a command whose redaction hits the
byte-truncation panic, `execute_command` panics (modelled as `none`) while
building the error value. -/
theorem execute_command_spawn_panic_counterexample :
    (execute_command panicToken spawnFailRunner).2 = none := by decide

/-- Claim C5, amended: `execute_command` classifies every outcome exactly
as claimed — blank command to `NoCommandDefined` with no shell invocation,
exit 0 to success, nonzero exit `c` to `ExecutionFailed c`, no obtainable
exit code to `ExecutionTerminatedBySignal`, and a spawn failure to
`CommandSpawnFailed` carrying the redacted command, shell description and
OS error — provided, in the spawn-failure case, that the redaction returns
a string rather than panicking. -/
theorem execute_command_classification (command : String)
    (runner : CommandRunner) :
    ((rustTrim command).isEmpty = true →
      execute_command command runner = ([], some (.error .NoCommandDefined))) ∧
    ((rustTrim command).isEmpty = false →
      (execute_command command runner).1 = [command] ∧
      (runner.run command = .exit (some 0) →
        (execute_command command runner).2 = some (.ok ())) ∧
      (∀ c, runner.run command = .exit (some c) → c ≠ 0 →
        (execute_command command runner).2 =
          some (.error (.ExecutionFailed c))) ∧
      (runner.run command = .exit none →
        (execute_command command runner).2 =
          some (.error .ExecutionTerminatedBySignal)) ∧
      (∀ msg red, runner.run command = .spawnError msg →
        redact_command command = some red →
        (execute_command command runner).2 =
          some (.error (.CommandSpawnFailed red runner.shell_display msg)))) := by
  constructor
  · intro h
    simp [execute_command, h]
  · intro h
    refine ⟨by simp [execute_command, h], ?_, ?_, ?_, ?_⟩
    · intro hr
      simp [execute_command, h, hr]
    · intro c hr hc
      simp [execute_command, h, hr, hc]
    · intro hr
      simp [execute_command, h, hr]
    · intro msg red hr hred
      simp [execute_command, h, hr, hred]

/-- A runner that reports exit code 0 for every command. -/
def okRunner : CommandRunner := ⟨fun _ => .exit (some 0), "test-shell -c"⟩

/-- Claim C5, witness: the classification applied to a concrete non-blank
command whose run exits 0. -/
theorem execute_command_classification_witness :
    execute_command "run-hook" okRunner = (["run-hook"], some (.ok ())) := by
  have h := (execute_command_classification "run-hook" okRunner).2 (by decide)
  calc execute_command "run-hook" okRunner
      = ((execute_command "run-hook" okRunner).1,
         (execute_command "run-hook" okRunner).2) := rfl
    _ = (["run-hook"], some (.ok ())) := by rw [h.1, h.2.1 rfl]

/-! ## Claim C2 -/

/-- One `execute_command` call invokes the runner at most once, and then
only on its own command string. -/
theorem execute_command_trace_cases (c : String) (r : CommandRunner) :
    (execute_command c r).1 = [] ∨ (execute_command c r).1 = [c] := by
  by_cases h : (rustTrim c).isEmpty <;> simp [execute_command, h]

/-- A successful `execute_command` call invoked the runner exactly once. -/
theorem execute_command_ok_trace (c : String) (r : CommandRunner)
    (h : (execute_command c r).2 = some (.ok ())) :
    (execute_command c r).1 = [c] := by
  by_cases he : (rustTrim c).isEmpty
  · simp [execute_command, he] at h
  · simp [execute_command, he]

/-- When the whole sequential group succeeds, the group invoked exactly its
declared commands, in declared order. -/
theorem runSeq_ok_calls (r : CommandRunner) :
    ∀ l, (runSeq r l).2 = some (.ok ()) →
      (runSeq r l).1 = l.map (·.command) := by
  intro l
  induction l with
  | nil => intro _; simp [runSeq]
  | cons hd t ih =>
    intro hok
    cases hc : (execute_command hd.command r).2 with
    | none => simp [runSeq, hc] at hok
    | some v =>
      cases v with
      | error e => simp [runSeq, hc] at hok
      | ok u =>
        cases u
        have ht : (runSeq r t).2 = some (.ok ()) := by
          simpa [runSeq, hc] using hok
        simp [runSeq, hc, execute_command_ok_trace hd.command r hc, ih ht]

/-- When the sequential group fails, the run consists of the successful
declared-order front, then the failing entry; entries after the failure
are never invoked. -/
theorem runSeq_error_struct (r : CommandRunner) :
    ∀ l e, (runSeq r l).2 = some (.error e) →
      ∃ l₁ d l₂, l = l₁ ++ d :: l₂ ∧
        (∀ x ∈ l₁, (execute_command x.command r).2 = some (.ok ())) ∧
        (execute_command d.command r).2 = some (.error e) ∧
        (runSeq r l).1 = l₁.map (·.command) ++ (execute_command d.command r).1 := by
  intro l
  induction l with
  | nil => intro e h; simp [runSeq] at h
  | cons hd t ih =>
    intro e h
    cases hc : (execute_command hd.command r).2 with
    | none => simp [runSeq, hc] at h
    | some v =>
      cases v with
      | error e2 =>
        have he : e2 = e := by simpa [runSeq, hc] using h
        subst he
        exact ⟨[], hd, t, rfl, by simp, hc, by simp [runSeq, hc]⟩
      | ok u =>
        cases u
        have ht : (runSeq r t).2 = some (.error e) := by
          simpa [runSeq, hc] using h
        obtain ⟨l₁, d, l₂, h1, h2, h3, h4⟩ := ih e ht
        refine ⟨hd :: l₁, d, l₂, by rw [h1, List.cons_append], ?_, h3, ?_⟩
        · intro x hx
          rcases List.mem_cons.mp hx with rfl | hx2
          · exact hc
          · exact h2 x hx2
        · simp [runSeq, hc, execute_command_ok_trace hd.command r hc, h4]

/-- The parallel group invokes nothing outside its declared commands, in an
order-preserving way under the canonical schedule. -/
theorem runPar_trace_sublist (r : CommandRunner) :
    ∀ l, List.Sublist (runPar r l).1 (l.map (·.command)) := by
  intro l
  induction l with
  | nil => simp [runPar]
  | cons hd t ih =>
    rcases execute_command_trace_cases hd.command r with h | h
    · simp only [runPar, h, List.nil_append, List.map_cons]
      exact ih.cons _
    · simp only [runPar, h, List.map_cons, List.cons_append, List.nil_append]
      exact ih.cons₂ _

/-- Claim C2 (confirmed): for a phase with mixed entries, when the whole
sequential group succeeds, the trace is exactly the sequential commands in
declared order followed only by parallel-group commands; when a sequential
command fails, the run is exactly the successful sequential front plus the
failing command, the phase reports that failure, and no later sequential
command and no parallel command is ever invoked. -/
theorem run_hooks_sequential_then_parallel (hooks : List HookDefinition)
    (runner : CommandRunner) :
    ((runSeq runner (hooks.filter fun h => !h.parallel_execution_allowed)).2 =
        some (.ok ()) →
      (run_hooks_with_runner hooks runner).1 =
        (hooks.filter fun h => !h.parallel_execution_allowed).map (·.command) ++
          (runPar runner (hooks.filter fun h => h.parallel_execution_allowed)).1 ∧
      List.Sublist
        (runPar runner (hooks.filter fun h => h.parallel_execution_allowed)).1
        ((hooks.filter fun h => h.parallel_execution_allowed).map (·.command))) ∧
    (∀ e,
      (runSeq runner (hooks.filter fun h => !h.parallel_execution_allowed)).2 =
        some (.error e) →
      run_hooks_with_runner hooks runner =
        ((runSeq runner (hooks.filter fun h => !h.parallel_execution_allowed)).1,
         some (.error e)) ∧
      ∃ l₁ d l₂,
        hooks.filter (fun h => !h.parallel_execution_allowed) = l₁ ++ d :: l₂ ∧
        (∀ x ∈ l₁, (execute_command x.command runner).2 = some (.ok ())) ∧
        (execute_command d.command runner).2 = some (.error e) ∧
        (run_hooks_with_runner hooks runner).1 =
          l₁.map (·.command) ++ (execute_command d.command runner).1) := by
  constructor
  · intro hok
    have h1 := runSeq_ok_calls runner _ hok
    exact ⟨by simp [run_hooks_with_runner, hok, h1], runPar_trace_sublist runner _⟩
  · intro e herr
    have hr : run_hooks_with_runner hooks runner =
        ((runSeq runner (hooks.filter fun h => !h.parallel_execution_allowed)).1,
         some (.error e)) := by
      simp [run_hooks_with_runner, herr]
    obtain ⟨l₁, d, l₂, h1, h2, h3, h4⟩ := runSeq_error_struct runner _ e herr
    exact ⟨hr, l₁, d, l₂, h1, h2, h3, by rw [hr]; exact h4⟩

/-- A runner that fails the command named sequential with exit code 10 and
exits 0 on everything else. -/
def failSequentialRunner : CommandRunner :=
  ⟨fun c => if c = "sequential" then .exit (some 10) else .exit (some 0),
   "test-shell -c"⟩

/-- The mixed phase of the repo's short-circuit test: one sequential entry
followed by one parallel entry. -/
def mixedHooks : List HookDefinition :=
  [⟨"sequential", false⟩, ⟨"parallel", true⟩]

/-- Claim C2, witness: with the failing sequential entry, the phase invokes
only the sequential command, reports its exit code, and never invokes the
parallel command. -/
theorem run_hooks_sequential_then_parallel_witness :
    run_hooks_with_runner mixedHooks failSequentialRunner =
      (["sequential"], some (.error (.ExecutionFailed 10))) := by
  have h := (run_hooks_sequential_then_parallel mixedHooks failSequentialRunner).2
    (.ExecutionFailed 10) (by decide)
  exact h.1.trans (by decide)

end GitSmee
